import Mathlib

/-!
Shallow embedding of the LinkedIn public-data extractor (src/linkedin.py).

Text is modelled as `List Char` internally (`String` at the data-model
boundary); Python string primitives (`in`, `.lower()`, `.strip()`,
`.split()`, `.title()`, `re.split`, `re.search`) are embedded as
executable functions over `List Char`, faithful for the ASCII inputs the
program handles.  The outbound Google search call is modelled as an
oracle parameter; the uncaught `IndexError` of `select_best_result` on an
empty list is modelled with `Except`.
-/

/-- Python ASCII whitespace, as used by `str.strip()` and `str.split()`. -/
def pyWs (c : Char) : Bool :=
  c = ' ' || c = '\t' || c = '\n' || c = '\r' || c = '\x0b' || c = '\x0c'

/-- Python `str.lower()` (ASCII fragment). -/
def lowerL (s : List Char) : List Char := s.map Char.toLower

/-- `isPre p t` : `p` occurs at the start of `t`. -/
def isPre : List Char → List Char → Bool
  | [], _ => true
  | _ :: _, [] => false
  | p :: ps, c :: cs => p == c && isPre ps cs

/-- Python substring test `pat in t` : `containsSub t pat`. -/
def containsSub : List Char → List Char → Bool
  | [], pat => isPre pat []
  | c :: cs, pat => isPre pat (c :: cs) || containsSub cs pat

/-- Python `str.strip()`: drop leading and trailing whitespace. -/
def trimL (s : List Char) : List Char :=
  ((s.dropWhile pyWs).reverse.dropWhile pyWs).reverse

/-- `re.split` on a single-character class: split at every separator,
keeping empty segments. -/
def splitOnP (p : Char → Bool) : List Char → List (List Char)
  | [] => [[]]
  | c :: cs =>
    if p c then [] :: splitOnP p cs
    else
      match splitOnP p cs with
      | [] => [[c]]
      | s :: ss => (c :: s) :: ss

/-- Python `s.split(":", 1)[-1]`: the text after the first colon when a
colon is present, the whole string otherwise. -/
def afterFirstColon (s : List Char) : List Char :=
  if s.contains ':' then (s.dropWhile (fun c => c != ':')).drop 1 else s

def titleCaseGo : Bool → List Char → List Char
  | _, [] => []
  | prevAlpha, c :: cs =>
    (if prevAlpha then c.toLower else c.toUpper) :: titleCaseGo c.isAlpha cs

/-- Python `str.title()` (ASCII fragment): uppercase at word starts,
lowercase elsewhere. -/
def titleCase (s : List Char) : List Char := titleCaseGo false s

/-- A raw search result `{title, snippet, url}` from the search collaborator. -/
structure SearchResult where
  title : String
  snippet : String
  url : String
deriving DecidableEq, Repr

/-- The structured-profile mapping: a `none` field models a key absent
from the Python dict. -/
structure StructuredProfile where
  name : Option String := none
  about : Option String := none
  experience : Option String := none
  education : Option String := none
  location : Option String := none
  headline : Option String := none
deriving DecidableEq, Repr

/-- The literal `linkedin.com/in/` of the slug regex. -/
def linkedinPat : List Char := "linkedin.com/in/".toList

/-- `re.search(r"linkedin\.com/in/([^/]+)/?", t)`: leftmost position where
the literal pattern is followed by at least one non-slash character; the
group is the maximal run of non-slash characters there. -/
def slugSearch : List Char → Option (List Char)
  | [] => none
  | c :: cs =>
    if isPre linkedinPat (c :: cs) then
      let seg := ((c :: cs).drop linkedinPat.length).takeWhile (fun d => d != '/')
      if seg.isEmpty then slugSearch cs else some seg
    else slugSearch cs

/-- `extract_slug` of the source: regex search over the lowercased URL. -/
def extract_slug (url : String) : Option String :=
  (slugSearch (lowerL url.toList)).map String.mk

/-- `score_result` of the source: six independent additive signals. -/
def score_result (result : SearchResult) (slug : String) : Nat :=
  let url := lowerL result.url.toList
  let title := lowerL result.title.toList
  let snippet := lowerL result.snippet.toList
  let slugL := lowerL slug.toList
  let score := 0
  let score := if containsSub url linkedinPat then score + 20 else score
  let score := if containsSub url slugL then score + 40 else score
  let slug_parts :=
    (splitOnP pyWs (slugL.map fun c => if c = '-' then ' ' else c)).filter
      (fun p => !p.isEmpty)
  let score := if slug_parts.all (fun p => containsSub title p) then score + 20 else score
  let score := if containsSub snippet "experience:".toList then score + 5 else score
  let score := if containsSub snippet "education:".toList then score + 5 else score
  let score := if containsSub snippet "location:".toList then score + 10 else score
  score

/-- Stable insertion into a descending-sorted scored list: the incoming
element (earlier in the original order) goes before the first element
with an equal or smaller score, so equal scores keep first-seen order. -/
def insertScored (x : Nat × SearchResult) :
    List (Nat × SearchResult) → List (Nat × SearchResult)
  | [] => [x]
  | y :: ys => if y.1 ≤ x.1 then x :: y :: ys else y :: insertScored x ys

/-- Python `scored.sort(key=lambda x: x[0], reverse=True)`: a stable sort,
descending by score.  The stable descending-by-key permutation of a list
is unique, so this insertion sort is extensionally the sort the source
performs. -/
def sortScored : List (Nat × SearchResult) → List (Nat × SearchResult)
  | [] => []
  | x :: xs => insertScored x (sortScored xs)

/-- `select_best_result` of the source: stable descending sort of the
scored list, then unguarded indexing of the head (`Except.error` models
the `IndexError` on an empty list) and the `< 50` threshold. -/
def select_best_result (results : List SearchResult) (slug : String) :
    Except Unit (Option SearchResult) :=
  let scored := results.map fun r => (score_result r slug, r)
  let sorted := sortScored scored
  match sorted with
  | [] => .error ()
  | (best_score, best_result) :: _ =>
    if best_score < 50 then .ok none else .ok (some best_result)

/-- `has_any_slug_match` of the source. -/
def has_any_slug_match (results : List SearchResult) (slug : String) : Bool :=
  let slugL := lowerL slug.toList
  results.any fun r => containsSub (lowerL r.url.toList) slugL

/-- The fixed city gazetteer `KNOWN_CITIES` of the source. -/
def KNOWN_CITIES : List (List Char) :=
  ["mumbai", "pune", "delhi", "bangalore", "bengaluru",
   "hyderabad", "chennai", "kolkata", "ahmedabad",
   "india", "new york", "london"].map String.toList

/-- The role keywords of the headline regex, in alternation order. -/
def ROLE_KEYWORDS : List (List Char) :=
  ["student", "engineer", "developer", "designer", "analyst",
   "specialist", "manager"].map String.toList

/-- Length of the role keyword matching (case-insensitively) at the start
of `s`, if any — the regex alternation tried left to right. -/
def kwAt (s : List Char) : Option Nat :=
  ROLE_KEYWORDS.findSome? fun k => if isPre k (lowerL s) then some k.length else none

/-- `re.search(r"(student|engineer|...)[^.,]*", s, re.IGNORECASE)`:
leftmost keyword occurrence, extended greedily over non-`.`/`,`
characters; returns the matched span of the original text. -/
def roleSearch : List Char → Option (List Char)
  | [] => none
  | c :: cs =>
    match kwAt (c :: cs) with
    | some n =>
      some ((c :: cs).take n ++ ((c :: cs).drop n).takeWhile fun d => d != '.' && d != ',')
    | none => roleSearch cs

/-- One iteration of the experience/education loops: a segment containing
the key overwrites the current value when its extracted text is nonempty
and not the ellipsis placeholder. -/
def keyFieldStep (key : List Char) (cur : Option (List Char)) (p : List Char) :
    Option (List Char) :=
  if containsSub (lowerL p) key then
    let v := trimL (afterFirstColon p)
    if !v.isEmpty && v != "...".toList then some v else cur
  else cur

/-- The full `for p in parts` loop of the source for one key. -/
def keyFieldLoop (key : List Char) (parts : List (List Char)) : Option (List Char) :=
  parts.foldl (keyFieldStep key) none

/-- The extracted value of a segment: text after the first colon, trimmed. -/
def keyVal (p : List Char) : List Char := trimL (afterFirstColon p)

/-- A segment that sets the keyed field: it contains the key
(case-insensitively) and its extracted value is nonempty and not the
ellipsis placeholder. -/
def keyGood (key : List Char) (p : List Char) : Bool :=
  containsSub (lowerL p) key && (!(keyVal p).isEmpty && keyVal p != "...".toList)

/-- The bullet-separated, trimmed segments of a snippet
(`[p.strip() for p in re.split(r"[·|•]", snippet)]`). -/
def snippetParts (snippet : String) : List (List Char) :=
  (splitOnP (fun c => c = '·' || c = '|' || c = '•') snippet.toList).map trimL

/-- `structure_google_snippet` of the source. -/
def structure_google_snippet (title snippet : String) : StructuredProfile :=
  let titleL := title.toList
  let snippetL := snippet.toList
  let name :=
    if titleL.contains '-' then
      let nm := trimL (titleL.takeWhile fun c => c != '-')
      if nm.isEmpty then none else some nm
    else none
  let parts := snippetParts snippet
  let about :=
    match parts with
    | [] => none
    | p0 :: _ => if !p0.isEmpty && p0 != "...".toList then some p0 else none
  let experience := keyFieldLoop "experience".toList parts
  let education := keyFieldLoop "education".toList parts
  let location := (KNOWN_CITIES.find? fun city => containsSub (lowerL snippetL) city).map titleCase
  let headline :=
    match about with
    | none => none
    | some ab => (roleSearch ab).map trimL
  { name := name.map String.mk, about := about.map String.mk,
    experience := experience.map String.mk, education := education.map String.mk,
    location := location.map String.mk, headline := headline.map String.mk }

/-- `raw_google_data` is `[]`, a single result, or the full result list. -/
inductive RawData where
  | empty : RawData
  | one : SearchResult → RawData
  | many : List SearchResult → RawData
deriving DecidableEq, Repr

/-- The response dict built by `build_response`; `structured_data` is an
optional key. -/
structure Response where
  status : String
  confidence : ℚ
  reason_code : String
  reason_message : String
  raw_google_data : RawData
  structured_data : Option StructuredProfile
deriving DecidableEq, Repr

/-- The `confidence_map.get(status, 0.1)` lookup of `build_response`. -/
def confidence_map (status : String) : ℚ :=
  if status = "public_structured" then 0.9
  else if status = "ambiguous" then 0.4
  else if status = "not_found" then 0.2
  else 0.1

/-- `build_response` of the source. -/
def build_response (status reason_code reason_message : String)
    (raw_google_data : RawData) (structured_data : Option StructuredProfile) : Response :=
  { status := status, confidence := confidence_map status,
    reason_code := reason_code, reason_message := reason_message,
    raw_google_data := raw_google_data, structured_data := structured_data }

/-- CASE 1 response: Google returned nothing. -/
def resp_no_results : Response :=
  build_response "not_found" "GOOGLE_NO_RESULTS"
    "Google did not return any LinkedIn profiles for this URL."
    RawData.empty none

/-- CASE 2 response: results exist but none match the slug. -/
def resp_no_slug_match : Response :=
  build_response "not_found" "NO_SLUG_MATCH"
    "LinkedIn profile may be private, removed, or not indexed by Google. Google returned profiles, but none match the requested LinkedIn URL."
    RawData.empty none

/-- CASE 3 response: multiple weak matches. -/
def resp_ambiguous (results : List SearchResult) : Response :=
  build_response "ambiguous" "MULTIPLE_CANDIDATES"
    "Multiple LinkedIn profiles partially match the query. Unable to determine the correct profile with high confidence."
    (RawData.many results) none

/-- CASE 4 response: public profile found and structured. -/
def resp_public (best : SearchResult) : Response :=
  build_response "public_structured" "PROFILE_PUBLIC"
    "Public LinkedIn profile found and structured using Google public data."
    (RawData.one best) (some (structure_google_snippet best.title best.snippet))

/-- The four-case body of the `/extract` endpoint after the search call,
given the slug and the search results; `Except.error` propagates the
unhandled `IndexError` of `select_best_result`. -/
def extract_pipeline (slug : String) (results : List SearchResult) :
    Except Unit Response :=
  if results.isEmpty then
    .ok resp_no_results
  else
    match select_best_result results slug with
    | .error e => .error e
    | .ok none =>
      if !has_any_slug_match results slug then
        .ok resp_no_slug_match
      else
        .ok (resp_ambiguous results)
    | .ok (some best) =>
      .ok (resp_public best)

/-- Outcome of one request to the endpoint: an `HTTPException` or a
response (possibly an uncaught exception from the pipeline). -/
inductive EndpointResult where
  | httpError (statusCode : Nat) (detail : String)
  | response (r : Except Unit Response)
deriving Repr

/-- `extract_profile` of the source; the Google search call is the oracle
`search` (transport failures already degraded to `[]` inside it).  The
Python guard `if not slug` also catches an empty slug string. -/
def extract_profile (linkedin_url : String) (search : String → List SearchResult) :
    EndpointResult :=
  match extract_slug linkedin_url with
  | none => .httpError 400 "Invalid LinkedIn URL"
  | some slug =>
    if slug.isEmpty then .httpError 400 "Invalid LinkedIn URL"
    else .response (extract_pipeline slug (search slug))

/-! ### Generic helper lemmas -/

theorem isPre_iff (p : List Char) : ∀ t : List Char, isPre p t = true ↔ ∃ r, t = p ++ r := by
  induction p with
  | nil => intro t; simp [isPre]
  | cons a ps ih =>
    intro t
    cases t with
    | nil => simp [isPre]
    | cons c cs =>
      simp only [isPre, Bool.and_eq_true, beq_iff_eq, ih, List.cons_append, List.cons.injEq]
      constructor
      · rintro ⟨rfl, r, rfl⟩; exact ⟨r, rfl, rfl⟩
      · rintro ⟨r, rfl, rfl⟩; exact ⟨rfl, r, rfl⟩

theorem dropWhile_append_singleton {p : Char → Bool} {c : Char} (h : p c = false) :
    ∀ xs : List Char, (xs ++ [c]).dropWhile p = xs.dropWhile p ++ [c] := by
  intro xs
  induction xs with
  | nil => simp [List.dropWhile, h]
  | cons x xs ih =>
    simp only [List.cons_append, List.dropWhile_cons]
    split <;> simp [ih]

theorem trimL_cons_of_not_ws {c : Char} (h : pyWs c = false) (t : List Char) :
    ∃ r, trimL (c :: t) = c :: r := by
  refine ⟨((t.reverse.dropWhile pyWs).reverse : List Char), ?_⟩
  simp only [trimL, List.dropWhile_cons, h, Bool.false_eq_true, if_false,
    List.reverse_cons, dropWhile_append_singleton h, List.reverse_append,
    List.reverse_cons, List.reverse_nil, List.nil_append, List.singleton_append]

theorem dropWhile_shape (p : Char → Bool) (l : List Char) :
    l.dropWhile p = [] ∨ ∃ c r, l.dropWhile p = c :: r ∧ p c = false := by
  induction l with
  | nil => left; rfl
  | cons x xs ih =>
    by_cases hx : p x = true
    · simpa [List.dropWhile_cons, hx] using ih
    · right
      exact ⟨x, xs, by simp [List.dropWhile_cons, hx], by simpa using hx⟩

theorem foldl_max_le_of_mem :
    ∀ (xs : List Nat) (a x : Nat), x ∈ xs → x ≤ xs.foldl Nat.max a := by
  intro xs
  induction xs with
  | nil => intro a x hx; cases hx
  | cons y ys ih =>
    intro a x hx
    rcases List.mem_cons.mp hx with rfl | hx'
    · calc x ≤ Nat.max a x := Nat.le_max_right a x
        _ ≤ ys.foldl Nat.max (Nat.max a x) := le_foldl_max ys _
        _ = (x :: ys).foldl Nat.max a := rfl
    · exact ih (Nat.max a y) x hx'
where
  le_foldl_max : ∀ (xs : List Nat) (a : Nat), a ≤ xs.foldl Nat.max a := by
    intro xs
    induction xs with
    | nil => intro a; exact Nat.le_refl a
    | cons y ys ih =>
      intro a
      calc a ≤ Nat.max a y := Nat.le_max_left a y
        _ ≤ ys.foldl Nat.max (Nat.max a y) := ih _

theorem foldl_max_mem :
    ∀ (xs : List Nat) (a : Nat), xs.foldl Nat.max a = a ∨ xs.foldl Nat.max a ∈ xs := by
  intro xs
  induction xs with
  | nil => intro a; left; rfl
  | cons y ys ih =>
    intro a
    rcases ih (Nat.max a y) with h | h
    · rcases Nat.le_total a y with hay | hya
      · right
        have hm : Nat.max a y = y := by unfold Nat.max; exact sup_eq_right.mpr hay
        rw [List.foldl_cons, h, hm]
        exact List.mem_cons_self y ys
      · left
        have hm : Nat.max a y = a := by unfold Nat.max; exact sup_eq_left.mpr hya
        rw [List.foldl_cons, h, hm]
    · right; exact List.mem_cons_of_mem y h

theorem ite_weight_mono (a b : Bool) (w : Nat) (h : a = true → b = true) :
    (if a = true then w else 0) ≤ (if b = true then w else 0) := by
  cases a with
  | false => simp
  | true => simp [h rfl]

theorem mk_data (l : List Char) : (String.mk l).data = l := rfl

theorem mk_ne_empty {l : List Char} (h : l ≠ []) : String.mk l ≠ "" := by
  intro he
  exact h (by simpa using congrArg String.data he)

theorem mk_eq_iff {l : List Char} {s : String} : String.mk l = s ↔ l = s.data := by
  constructor
  · intro h; simpa using congrArg String.data h
  · intro h; cases s; exact congrArg String.mk h

/-! ### Characterization of the candidate selector -/

/-- The maximum score over a result list (0 for the empty list). -/
def maxScore (results : List SearchResult) (slug : String) : Nat :=
  (results.map fun r => score_result r slug).foldl Nat.max 0

theorem score_le_maxScore {results : List SearchResult} {x : SearchResult}
    (slug : String) (hx : x ∈ results) : score_result x slug ≤ maxScore results slug :=
  foldl_max_le_of_mem _ 0 _ (List.mem_map_of_mem (fun r => score_result r slug) hx)

theorem sortScored_head :
    ∀ {l : List (Nat × SearchResult)}, l ≠ [] →
      ∃ p rest, sortScored l = p :: rest ∧ p ∈ l ∧ ∀ q ∈ l, q.1 ≤ p.1 := by
  intro l
  induction l with
  | nil => intro h; exact absurd rfl h
  | cons x xs ih =>
    intro _
    cases xs with
    | nil =>
      exact ⟨x, [], rfl, List.mem_cons_self x [], by
        intro q hq
        rcases List.mem_cons.mp hq with rfl | hq'
        · exact Nat.le_refl _
        · cases hq'⟩
    | cons y ys =>
      obtain ⟨p, rest, hps, hpmem, hub⟩ := ih (List.cons_ne_nil y ys)
      rw [sortScored, hps]
      by_cases hle : p.1 ≤ x.1
      · refine ⟨x, p :: rest, by rw [insertScored, if_pos hle], List.mem_cons_self x _, ?_⟩
        intro q hq
        rcases List.mem_cons.mp hq with rfl | hq'
        · exact Nat.le_refl _
        · exact Nat.le_trans (hub q hq') hle
      · refine ⟨p, insertScored x rest, by rw [insertScored, if_neg hle],
          List.mem_cons_of_mem x hpmem, ?_⟩
        intro q hq
        rcases List.mem_cons.mp hq with rfl | hq'
        · omega
        · exact hub q hq'

theorem select_spec (slug : String) {results : List SearchResult} (h : results ≠ []) :
    ∃ s r, r ∈ results ∧ s = score_result r slug ∧
      (∀ x ∈ results, score_result x slug ≤ s) ∧
      select_best_result results slug =
        (if s < 50 then .ok none else .ok (some r)) := by
  have hscored_ne : results.map (fun r => (score_result r slug, r)) ≠ [] := by
    simp only [ne_eq, List.map_eq_nil_iff]
    exact h
  obtain ⟨p, rest, hps, hpmem, hub⟩ := sortScored_head hscored_ne
  obtain ⟨r, hr, hpr⟩ := List.mem_map.mp hpmem
  refine ⟨p.1, p.2, ?_, ?_, ?_, ?_⟩
  · rw [← hpr]; exact hr
  · rw [← hpr]
  · intro x hx
    have := hub (score_result x slug, x)
      (List.mem_map_of_mem (fun r => (score_result r slug, r)) hx)
    simpa using this
  · show (match sortScored (results.map fun r => (score_result r slug, r)) with
      | [] => Except.error ()
      | (best_score, best_result) :: _ =>
        if best_score < 50 then Except.ok none else Except.ok (some best_result)) =
      if p.1 < 50 then Except.ok none else Except.ok (some p.2)
    rw [hps]

theorem select_spec_max (slug : String) {results : List SearchResult} (h : results ≠ []) :
    ∃ r, r ∈ results ∧ score_result r slug = maxScore results slug ∧
      select_best_result results slug =
        (if maxScore results slug < 50 then .ok none else .ok (some r)) := by
  obtain ⟨s, r, hr, hs, hub, hsel⟩ := select_spec slug h
  have hsmax : s = maxScore results slug := by
    apply le_antisymm
    · exact hs ▸ score_le_maxScore slug hr
    · rcases foldl_max_mem (results.map fun r => score_result r slug) 0 with h0 | hmem
      · rw [maxScore, h0]; exact Nat.zero_le s
      · obtain ⟨x, hx, hxm⟩ := List.mem_map.mp hmem
        rw [maxScore, ← hxm]
        exact hub x hx
  exact ⟨r, hr, by rw [← hs, hsmax], by rw [← hsmax]; exact hsel⟩

/-! ### Characterization of the structurer loops -/

theorem keyFieldStep_eq (key : List Char) (cur : Option (List Char)) (p : List Char) :
    keyFieldStep key cur p = if keyGood key p then some (keyVal p) else cur := by
  cases hc : containsSub (lowerL p) key with
  | false => simp [keyFieldStep, keyGood, hc]
  | true =>
    cases hv : (!(trimL (afterFirstColon p)).isEmpty && trimL (afterFirstColon p) != "...".toList) with
    | false => simp [keyFieldStep, keyGood, keyVal, hc, hv]
    | true => simp [keyFieldStep, keyGood, keyVal, hc, hv]

theorem keyFieldLoop_acc (key : List Char) (parts : List (List Char)) :
    ∀ acc : Option (List Char),
      parts.foldl (keyFieldStep key) acc =
        match parts.reverse.find? (keyGood key) with
        | some p => some (keyVal p)
        | none => acc := by
  induction parts using List.reverseRecOn with
  | nil => intro acc; rfl
  | append_singleton l q ih =>
    intro acc
    rw [List.foldl_append, List.foldl_cons, List.foldl_nil, keyFieldStep_eq]
    rw [List.reverse_append, List.reverse_singleton, List.singleton_append]
    cases hq : keyGood key q with
    | true => simp [List.find?_cons_of_pos, hq]
    | false =>
      rw [List.find?_cons_of_neg _ (by simp [hq]), if_neg (by simp [hq])]
      exact ih acc

/-- The experience/education loop keeps the value of the LAST segment that
contains the key and extracts a valid value. -/
theorem keyFieldLoop_eq (key : List Char) (parts : List (List Char)) :
    keyFieldLoop key parts = (parts.reverse.find? (keyGood key)).map keyVal := by
  rw [keyFieldLoop, keyFieldLoop_acc]
  cases parts.reverse.find? (keyGood key) <;> rfl

/-! ### Lemmas about the headline keyword search -/

theorem kwAt_some {s : List Char} {n : Nat} (h : kwAt s = some n) :
    ∃ k, k ∈ ROLE_KEYWORDS ∧ isPre k (lowerL s) = true ∧ n = k.length := by
  obtain ⟨k, hk, hfk⟩ := List.exists_of_findSome?_eq_some h
  by_cases hp : isPre k (lowerL s) = true
  · rw [if_pos hp] at hfk
    exact ⟨k, hk, hp, (Option.some.injEq _ _ ▸ hfk).symm⟩
  · rw [if_neg hp] at hfk
    cases hfk

theorem roleSearch_some :
    ∀ {s m : List Char}, roleSearch s = some m →
      ∃ c cs n, kwAt (c :: cs) = some n ∧
        m = (c :: cs).take n ++
          ((c :: cs).drop n).takeWhile (fun d => d != '.' && d != ',') := by
  intro s
  induction s with
  | nil => intro m h; cases h
  | cons c cs ih =>
    intro m h
    rw [roleSearch] at h
    cases hk : kwAt (c :: cs) with
    | some n =>
      rw [hk] at h
      exact ⟨c, cs, n, hk, (Option.some.injEq _ _ ▸ h).symm⟩
    | none =>
      rw [hk] at h
      exact ih h

theorem roleKeyword_facts : ∀ k ∈ ROLE_KEYWORDS, k ≠ [] ∧
    (k.headD 'x' = 's' ∨ k.headD 'x' = 'e' ∨ k.headD 'x' = 'd' ∨
     k.headD 'x' = 'a' ∨ k.headD 'x' = 'm') := by decide

theorem not_ws_of_toLower_keyword {c k0 : Char} (h : k0 = Char.toLower c)
    (halpha : k0 = 's' ∨ k0 = 'e' ∨ k0 = 'd' ∨ k0 = 'a' ∨ k0 = 'm') :
    pyWs c = false ∧ c ≠ '.' := by
  constructor
  · by_contra hws
    have hws' : pyWs c = true := by simpa using hws
    simp only [pyWs, Bool.or_eq_true, decide_eq_true_eq, or_assoc] at hws'
    rcases hws' with rfl | rfl | rfl | rfl | rfl | rfl <;>
      rcases halpha with rfl | rfl | rfl | rfl | rfl <;> exact absurd h (by decide)
  · intro hdot
    subst hdot
    rcases halpha with rfl | rfl | rfl | rfl | rfl <;> exact absurd h (by decide)

theorem roleSearch_head {s m : List Char} (h : roleSearch s = some m) :
    ∃ c r, m = c :: r ∧ pyWs c = false ∧ c ≠ '.' := by
  obtain ⟨c, cs, n, hk, hm⟩ := roleSearch_some h
  obtain ⟨k, hkmem, hpre, hn⟩ := kwAt_some hk
  obtain ⟨hkne, hhead⟩ := roleKeyword_facts k hkmem
  obtain ⟨k0, ktail, rfl⟩ := List.exists_cons_of_ne_nil hkne
  have hk0 : k0 = Char.toLower c := by
    have hpre' : isPre (k0 :: ktail) (Char.toLower c :: lowerL cs) = true := by
      simpa [lowerL] using hpre
    simp only [isPre, Bool.and_eq_true, beq_iff_eq] at hpre'
    exact hpre'.1
  have hfacts : pyWs c = false ∧ c ≠ '.' :=
    not_ws_of_toLower_keyword hk0 (by simpa using hhead)
  refine ⟨c, cs.take ktail.length ++
    ((c :: cs).drop (k0 :: ktail).length).takeWhile (fun d => d != '.' && d != ','),
    ?_, hfacts.1, hfacts.2⟩
  rw [hm, hn]
  simp only [List.length_cons, List.take_succ_cons, List.cons_append]

/-! ### Lemmas about the slug extractor -/

theorem slugSearch_some :
    ∀ {t s : List Char}, slugSearch t = some s →
      s ≠ [] ∧ (∀ c ∈ s, c ≠ '/') ∧
      ∃ l1 l2, t = l1 ++ linkedinPat ++ s ++ l2 ∧
        (l2 = [] ∨ ∃ r, l2 = '/' :: r) := by
  intro t
  induction t with
  | nil => intro s h; cases h
  | cons a t' ih =>
    intro s h
    simp only [slugSearch] at h
    split at h
    · split at h
      · obtain ⟨hne, hmem, l1, l2, heq, hl2⟩ := ih h
        exact ⟨hne, hmem, a :: l1, l2, by simp only [List.cons_append]; rw [← heq], hl2⟩
      · rename_i hp hseg
        obtain ⟨rest, hrest⟩ := (isPre_iff linkedinPat (a :: t')).mp hp
        have hs : s = rest.takeWhile (fun d => d != '/') := by
          have hdrop : (a :: t').drop linkedinPat.length = rest := by
            rw [hrest]; exact List.drop_left linkedinPat rest
          rw [hdrop] at h
          exact (Option.some.injEq _ _ ▸ h).symm
        refine ⟨?_, ?_, [], rest.dropWhile (fun d => d != '/'), ?_, ?_⟩
        · intro hnil
          apply hseg
          have hdrop : (a :: t').drop linkedinPat.length = rest := by
            rw [hrest]; exact List.drop_left linkedinPat rest
          rw [hdrop, ← hs, hnil]
          rfl
        · intro c hc
          have := List.mem_takeWhile_imp (hs ▸ hc)
          simpa using this
        · rw [List.nil_append, hrest, hs, List.append_assoc,
            List.takeWhile_append_dropWhile]
        · rcases dropWhile_shape (fun d => d != '/') rest with h0 | ⟨c, r, hcr, hcf⟩
          · left; exact h0
          · right
            refine ⟨r, ?_⟩
            have : c = '/' := by simpa using hcf
            rw [hcr, this]
    · obtain ⟨hne, hmem, l1, l2, heq, hl2⟩ := ih h
      exact ⟨hne, hmem, a :: l1, l2, by simp only [List.cons_append]; rw [← heq], hl2⟩

theorem slugSearch_none :
    ∀ {t : List Char}, slugSearch t = none →
      ∀ l1 c l2, t = l1 ++ linkedinPat ++ c :: l2 → c = '/' := by
  intro t
  induction t with
  | nil =>
    intro _ l1 c l2 heq
    have hlen := congrArg List.length heq
    simp only [List.length_nil, List.length_append, List.length_cons] at hlen
    omega
  | cons a t' ih =>
    intro h l1 c l2 heq
    simp only [slugSearch] at h
    split at h
    · split at h
      · rename_i hp hseg
        cases l1 with
        | nil =>
          simp only [List.nil_append] at heq
          have hdrop : (a :: t').drop linkedinPat.length = c :: l2 := by
            rw [heq]; exact List.drop_left linkedinPat (c :: l2)
          rw [hdrop, List.takeWhile_cons] at hseg
          by_cases hc : (c != '/') = true
          · rw [if_pos hc] at hseg
            simp at hseg
          · simpa using hc
        | cons b l1' =>
          simp only [List.cons_append, List.cons.injEq] at heq
          exact ih h l1' c l2 heq.2
      · cases h
    · rename_i hp
      cases l1 with
      | nil =>
        simp only [List.nil_append] at heq
        exact absurd ((isPre_iff linkedinPat (a :: t')).mpr ⟨c :: l2, heq⟩) hp
      | cons b l1' =>
        simp only [List.cons_append, List.cons.injEq] at heq
        exact ih h l1' c l2 heq.2

/-! ### The six scoring signals, as independent predicates -/

/-- Signal: the result URL contains `linkedin.com/in/` (+20). -/
def sig_path (r : SearchResult) : Bool :=
  containsSub (lowerL r.url.toList) linkedinPat

/-- Signal: the slug appears verbatim in the result URL (+40). -/
def sig_slug (r : SearchResult) (slug : String) : Bool :=
  containsSub (lowerL r.url.toList) (lowerL slug.toList)

/-- Signal: every hyphen/whitespace-separated slug token appears in the
result title (+20). -/
def sig_tokens (r : SearchResult) (slug : String) : Bool :=
  ((splitOnP pyWs ((lowerL slug.toList).map fun c => if c = '-' then ' ' else c)).filter
    (fun p => !p.isEmpty)).all fun p => containsSub (lowerL r.title.toList) p

/-- Signal: the snippet contains `experience:` (+5). -/
def sig_exp (r : SearchResult) : Bool :=
  containsSub (lowerL r.snippet.toList) "experience:".toList

/-- Signal: the snippet contains `education:` (+5). -/
def sig_edu (r : SearchResult) : Bool :=
  containsSub (lowerL r.snippet.toList) "education:".toList

/-- Signal: the snippet contains `location:` (+10). -/
def sig_loc (r : SearchResult) : Bool :=
  containsSub (lowerL r.snippet.toList) "location:".toList

theorem score_result_eq_signals (r : SearchResult) (slug : String) :
    score_result r slug =
      (if sig_path r then 20 else 0) + (if sig_slug r slug then 40 else 0) +
      (if sig_tokens r slug then 20 else 0) + (if sig_exp r then 5 else 0) +
      (if sig_edu r then 5 else 0) + (if sig_loc r then 10 else 0) := by
  simp only [score_result, sig_path, sig_slug, sig_tokens, sig_exp, sig_edu, sig_loc]
  repeat' split
  all_goals omega

/-! ### Claim theorems -/

/-- C5: `score_result` is exactly the sum of the six independently
evaluated signal weights (path shape +20, exact slug +40, token coverage
+20, experience marker +5, education marker +5, location marker +10, all
comparisons on lowercased text), hence it never exceeds 100, and it is
monotone: a result/slug pair whose satisfied signals include those of
another scores at least as much. -/
theorem C5_score_decomposition (r : SearchResult) (slug : String) :
    score_result r slug =
      (if sig_path r then 20 else 0) + (if sig_slug r slug then 40 else 0) +
      (if sig_tokens r slug then 20 else 0) + (if sig_exp r then 5 else 0) +
      (if sig_edu r then 5 else 0) + (if sig_loc r then 10 else 0) ∧
    score_result r slug ≤ 100 ∧
    (∀ (r' : SearchResult) (slug' : String),
      (sig_path r = true → sig_path r' = true) →
      (sig_slug r slug = true → sig_slug r' slug' = true) →
      (sig_tokens r slug = true → sig_tokens r' slug' = true) →
      (sig_exp r = true → sig_exp r' = true) →
      (sig_edu r = true → sig_edu r' = true) →
      (sig_loc r = true → sig_loc r' = true) →
      score_result r slug ≤ score_result r' slug') := by
  refine ⟨score_result_eq_signals r slug, ?_, ?_⟩
  · rw [score_result_eq_signals]
    repeat' split
    all_goals omega
  · intro r' slug' h1 h2 h3 h4 h5 h6
    rw [score_result_eq_signals r slug, score_result_eq_signals r' slug']
    exact Nat.add_le_add (Nat.add_le_add (Nat.add_le_add (Nat.add_le_add
      (Nat.add_le_add (ite_weight_mono _ _ 20 h1) (ite_weight_mono _ _ 40 h2))
      (ite_weight_mono _ _ 20 h3)) (ite_weight_mono _ _ 5 h4))
      (ite_weight_mono _ _ 5 h5)) (ite_weight_mono _ _ 10 h6)

/-- Witness for C5 at concrete inputs: a result with no satisfied signal
scores at most a result satisfying path, slug and experience signals. -/
theorem C5_score_decomposition_witness :
    score_result ⟨"x", "y", "z"⟩ "jane" ≤
      score_result ⟨"jane", "experience: acme", "https://linkedin.com/in/jane"⟩ "jane" :=
  (C5_score_decomposition ⟨"x", "y", "z"⟩ "jane").2.2
    ⟨"jane", "experience: acme", "https://linkedin.com/in/jane"⟩ "jane"
    (by decide) (by decide) (by decide) (by decide) (by decide) (by decide)

/-- C4: for a non-empty result list, `select_best_result` returns a
candidate exactly when the maximum score reaches the fixed threshold 50
(so a best score of exactly 50 is accepted and any best score below 50,
such as 49, yields no candidate). -/
theorem C4_threshold (slug : String) (results : List SearchResult)
    (h : results ≠ []) :
    ((∃ r, select_best_result results slug = .ok (some r)) ↔
      50 ≤ maxScore results slug) ∧
    (select_best_result results slug = .ok none ↔ maxScore results slug < 50) := by
  obtain ⟨r, hr, hscore, hsel⟩ := select_spec_max slug h
  by_cases hlt : maxScore results slug < 50
  · rw [if_pos hlt] at hsel
    constructor
    · constructor
      · rintro ⟨r', hr'⟩
        rw [hsel] at hr'
        simp at hr'
      · intro hge; omega
    · simp [hsel, hlt]
  · rw [if_neg hlt] at hsel
    constructor
    · constructor
      · intro _; omega
      · intro _; exact ⟨r, hsel⟩
    · constructor
      · intro he
        rw [hsel] at he
        simp at he
      · intro hlt2; omega

/-- Witness for C4: a single result scoring exactly 50 is accepted, and a
single result scoring 45 (below the threshold) is rejected. -/
theorem C4_threshold_witness :
    (∃ r, select_best_result
        [⟨"jane", "location: mars", "https://linkedin.com/in/john"⟩] "jane" =
        .ok (some r)) ∧
    select_best_result
        [⟨"jane", "experience: acme", "https://linkedin.com/in/john"⟩] "jane" =
      .ok none :=
  ⟨((C4_threshold "jane" [⟨"jane", "location: mars", "https://linkedin.com/in/john"⟩]
      (List.cons_ne_nil _ _)).1).mpr (by decide),
   ((C4_threshold "jane" [⟨"jane", "experience: acme", "https://linkedin.com/in/john"⟩]
      (List.cons_ne_nil _ _)).2).mpr (by decide)⟩

/-- C3 counterexample: two distinct results with equal (maximal) scores.
Permuting the input list changes which candidate `select_best_result`
returns — ties are broken by first-seen order, so the chosen candidate is
NOT invariant under permutation. -/
theorem C3_counterexample :
    List.Perm
      [(⟨"a", "", "linkedin.com/in/jane"⟩ : SearchResult),
       ⟨"b", "", "linkedin.com/in/jane"⟩]
      [(⟨"b", "", "linkedin.com/in/jane"⟩ : SearchResult),
       ⟨"a", "", "linkedin.com/in/jane"⟩] ∧
    select_best_result
        [⟨"a", "", "linkedin.com/in/jane"⟩, ⟨"b", "", "linkedin.com/in/jane"⟩]
        "jane" = .ok (some ⟨"a", "", "linkedin.com/in/jane"⟩) ∧
    select_best_result
        [⟨"b", "", "linkedin.com/in/jane"⟩, ⟨"a", "", "linkedin.com/in/jane"⟩]
        "jane" = .ok (some ⟨"b", "", "linkedin.com/in/jane"⟩) ∧
    (⟨"a", "", "linkedin.com/in/jane"⟩ : SearchResult) ≠
      ⟨"b", "", "linkedin.com/in/jane"⟩ :=
  ⟨List.Perm.swap _ _ _, rfl, rfl, by decide⟩

/-- C3 amended: permuting the input list changes neither whether a
candidate is selected nor the selected candidate's score; the identity of
the chosen candidate is preserved whenever exactly one result attains the
maximum score (ties between distinct results may change the choice). -/
theorem C3_perm_invariance (slug : String) (l l' : List SearchResult)
    (hp : List.Perm l l') :
    (select_best_result l slug = .ok none ↔
      select_best_result l' slug = .ok none) ∧
    (∀ r r', select_best_result l slug = .ok (some r) →
      select_best_result l' slug = .ok (some r') →
      score_result r slug = score_result r' slug) ∧
    (∀ r r', select_best_result l slug = .ok (some r) →
      select_best_result l' slug = .ok (some r') →
      (∀ x ∈ l, score_result x slug = score_result r slug → x = r) →
      r' = r) := by
  rcases eq_or_ne l [] with rfl | hne
  · have hnil : l' = [] := List.Perm.eq_nil hp.symm
    subst hnil
    refine ⟨Iff.rfl, ?_, ?_⟩ <;> intro r r' h1 _ <;> cases h1
  · have hne' : l' ≠ [] := fun he => hne (List.Perm.eq_nil (he ▸ hp))
    obtain ⟨r1, hr1, hs1, hsel1⟩ := select_spec_max slug hne
    obtain ⟨r2, hr2, hs2, hsel2⟩ := select_spec_max slug hne'
    have hmax : maxScore l slug = maxScore l' slug := by
      apply le_antisymm
      · rw [← hs1]; exact score_le_maxScore slug (hp.mem_iff.mp hr1)
      · rw [← hs2]; exact score_le_maxScore slug (hp.mem_iff.mpr hr2)
    refine ⟨?_, ?_, ?_⟩
    · by_cases hlt : maxScore l slug < 50
      · rw [if_pos hlt] at hsel1
        rw [if_pos (by omega)] at hsel2
        simp [hsel1, hsel2]
      · rw [if_neg hlt] at hsel1
        rw [if_neg (by omega)] at hsel2
        simp [hsel1, hsel2]
    · intro r r' h1 h2
      by_cases hlt : maxScore l slug < 50
      · rw [if_pos hlt] at hsel1
        rw [hsel1] at h1
        simp at h1
      · rw [if_neg hlt] at hsel1
        rw [if_neg (by omega)] at hsel2
        rw [hsel1] at h1
        rw [hsel2] at h2
        simp only [Except.ok.injEq, Option.some.injEq] at h1 h2
        rw [← h1, ← h2, hs1, hs2, hmax]
    · intro r r' h1 h2 huniq
      by_cases hlt : maxScore l slug < 50
      · rw [if_pos hlt] at hsel1
        rw [hsel1] at h1
        simp at h1
      · rw [if_neg hlt] at hsel1
        rw [if_neg (by omega)] at hsel2
        rw [hsel1] at h1
        rw [hsel2] at h2
        simp only [Except.ok.injEq, Option.some.injEq] at h1 h2
        subst h1
        subst h2
        exact huniq r2 (hp.mem_iff.mpr hr2) (by rw [hs2, ← hmax, hs1])

/-- Witness for C3 at a concrete permutation with a unique maximum. -/
theorem C3_perm_invariance_witness :
    (⟨"b jane", "", "linkedin.com/in/jane"⟩ : SearchResult) =
      ⟨"b jane", "", "linkedin.com/in/jane"⟩ :=
  (C3_perm_invariance "jane"
      [⟨"a", "", ""⟩, ⟨"b jane", "", "linkedin.com/in/jane"⟩]
      [⟨"b jane", "", "linkedin.com/in/jane"⟩, ⟨"a", "", ""⟩]
      (List.Perm.swap _ _ _)).2.2
    ⟨"b jane", "", "linkedin.com/in/jane"⟩
    ⟨"b jane", "", "linkedin.com/in/jane"⟩
    rfl rfl (by decide)

/-! ### Case equations for the endpoint body -/

theorem extract_pipeline_nil (slug : String) :
    extract_pipeline slug [] = .ok resp_no_results := rfl

theorem extract_pipeline_case2 {slug : String} {results : List SearchResult}
    (h1 : results ≠ [])
    (h2 : select_best_result results slug = .ok none)
    (h3 : has_any_slug_match results slug = false) :
    extract_pipeline slug results = .ok resp_no_slug_match := by
  obtain ⟨a, rs, rfl⟩ := List.exists_cons_of_ne_nil h1
  simp [extract_pipeline, h2, h3]

theorem extract_pipeline_case3 {slug : String} {results : List SearchResult}
    (h1 : results ≠ [])
    (h2 : select_best_result results slug = .ok none)
    (h3 : has_any_slug_match results slug = true) :
    extract_pipeline slug results = .ok (resp_ambiguous results) := by
  obtain ⟨a, rs, rfl⟩ := List.exists_cons_of_ne_nil h1
  simp [extract_pipeline, h2, h3]

theorem extract_pipeline_case4 {slug : String} {results : List SearchResult}
    {best : SearchResult}
    (h2 : select_best_result results slug = .ok (some best)) :
    extract_pipeline slug results = .ok (resp_public best) := by
  cases results with
  | nil => cases h2
  | cons a rs => simp [extract_pipeline, h2]

theorem extract_pipeline_shape (slug : String) (results : List SearchResult) :
    ∃ resp, extract_pipeline slug results = .ok resp ∧
      (resp.status = "not_found" ∨ resp.status = "ambiguous" ∨
        resp.status = "public_structured") ∧
      resp.confidence = confidence_map resp.status := by
  cases results with
  | nil => exact ⟨resp_no_results, rfl, Or.inl rfl, rfl⟩
  | cons a rs =>
    obtain ⟨r, _, _, hsel⟩ := select_spec_max slug (List.cons_ne_nil a rs)
    by_cases hlt : maxScore (a :: rs) slug < 50
    · rw [if_pos hlt] at hsel
      cases hany : has_any_slug_match (a :: rs) slug with
      | false =>
        exact ⟨resp_no_slug_match,
          extract_pipeline_case2 (List.cons_ne_nil a rs) hsel hany,
          Or.inl rfl, rfl⟩
      | true =>
        exact ⟨resp_ambiguous (a :: rs),
          extract_pipeline_case3 (List.cons_ne_nil a rs) hsel hany,
          Or.inr (Or.inl rfl), rfl⟩
    · rw [if_neg hlt] at hsel
      exact ⟨resp_public r, extract_pipeline_case4 hsel,
        Or.inr (Or.inr rfl), rfl⟩

/-- C9: `select_best_result` indexes the head of the sorted scored list
without a guard, so it fails (an uncaught `IndexError`, modelled as
`Except.error`) exactly on the empty result list; on every non-empty list
the indexing is safe, and at the only call site the preceding
zero-results check makes the failure branch unreachable: the pipeline
always produces a response. -/
theorem C9_selector_partiality :
    (∀ slug : String, select_best_result [] slug = .error ()) ∧
    (∀ (slug : String) (results : List SearchResult), results ≠ [] →
      ∃ v, select_best_result results slug = .ok v) ∧
    (∀ (slug : String) (results : List SearchResult),
      ∃ resp, extract_pipeline slug results = .ok resp) := by
  refine ⟨fun _ => rfl, ?_, ?_⟩
  · intro slug results h
    obtain ⟨r, _, _, hsel⟩ := select_spec_max slug h
    by_cases hlt : maxScore results slug < 50
    · exact ⟨none, by rw [hsel, if_pos hlt]⟩
    · exact ⟨some r, by rw [hsel, if_neg hlt]⟩
  · intro slug results
    obtain ⟨resp, hresp, _, _⟩ := extract_pipeline_shape slug results
    exact ⟨resp, hresp⟩

/-- Witness for C9 at a concrete non-empty list. -/
theorem C9_selector_partiality_witness :
    ∃ v, select_best_result [⟨"t", "s", "u"⟩] "slug" = .ok v :=
  C9_selector_partiality.2.1 "slug" [⟨"t", "s", "u"⟩] (List.cons_ne_nil _ _)

/-- C10: every response built by the pipeline has a status among
not_found / ambiguous / public_structured, its confidence is exactly the
mapped value of its status, and the 0.1 default of the confidence lookup
is never produced. -/
theorem C10_confidence_invariant (slug : String) (results : List SearchResult)
    (resp : Response) (h : extract_pipeline slug results = .ok resp) :
    (resp.status = "not_found" ∨ resp.status = "ambiguous" ∨
      resp.status = "public_structured") ∧
    resp.confidence = confidence_map resp.status ∧
    resp.confidence ≠ 0.1 := by
  obtain ⟨resp', hresp', hst, hconf⟩ := extract_pipeline_shape slug results
  rw [h] at hresp'
  have heq : resp = resp' := by injection hresp'
  subst heq
  refine ⟨hst, hconf, ?_⟩
  rcases hst with h1 | h1 | h1 <;> rw [hconf, h1] <;>
    (simp only [confidence_map, String.reduceEq, if_false, if_true]; norm_num)

/-- Witness for C10 at the concrete zero-results call. -/
theorem C10_confidence_invariant_witness :
    resp_no_results.confidence = confidence_map resp_no_results.status ∧
    resp_no_results.confidence ≠ 0.1 :=
  ⟨(C10_confidence_invariant "s" [] resp_no_results rfl).2.1,
   (C10_confidence_invariant "s" [] resp_no_results rfl).2.2⟩

/-- C6: the endpoint classification follows the four-case priority order:
zero results gives not_found / GOOGLE_NO_RESULTS / 0.2 with empty
payload; no selected candidate and no slug-bearing URL gives not_found /
NO_SLUG_MATCH / 0.2 with empty payload; no selected candidate but a
slug-bearing URL gives ambiguous / MULTIPLE_CANDIDATES / 0.4 with the
full result set; a selected candidate gives public_structured /
PROFILE_PUBLIC / 0.9 with the chosen result and its StructuredProfile. -/
theorem C6_outcome_cases (slug : String) (results : List SearchResult) :
    (results = [] → extract_pipeline slug results = .ok resp_no_results) ∧
    (select_best_result results slug = .ok none →
      has_any_slug_match results slug = false →
      extract_pipeline slug results = .ok resp_no_slug_match) ∧
    (select_best_result results slug = .ok none →
      has_any_slug_match results slug = true →
      extract_pipeline slug results = .ok (resp_ambiguous results)) ∧
    (∀ best, select_best_result results slug = .ok (some best) →
      extract_pipeline slug results = .ok (resp_public best)) ∧
    (resp_no_results.status = "not_found" ∧
      resp_no_results.reason_code = "GOOGLE_NO_RESULTS" ∧
      resp_no_results.confidence = 0.2 ∧
      resp_no_results.raw_google_data = RawData.empty ∧
      resp_no_results.structured_data = none) ∧
    (resp_no_slug_match.status = "not_found" ∧
      resp_no_slug_match.reason_code = "NO_SLUG_MATCH" ∧
      resp_no_slug_match.confidence = 0.2 ∧
      resp_no_slug_match.raw_google_data = RawData.empty ∧
      resp_no_slug_match.structured_data = none) ∧
    ((resp_ambiguous results).status = "ambiguous" ∧
      (resp_ambiguous results).reason_code = "MULTIPLE_CANDIDATES" ∧
      (resp_ambiguous results).confidence = 0.4 ∧
      (resp_ambiguous results).raw_google_data = RawData.many results ∧
      (resp_ambiguous results).structured_data = none) ∧
    (∀ best, (resp_public best).status = "public_structured" ∧
      (resp_public best).reason_code = "PROFILE_PUBLIC" ∧
      (resp_public best).confidence = 0.9 ∧
      (resp_public best).raw_google_data = RawData.one best ∧
      (resp_public best).structured_data =
        some (structure_google_snippet best.title best.snippet)) := by
  refine ⟨?_, ?_, ?_, ?_, ?_, ?_, ?_, ?_⟩
  · rintro rfl; exact extract_pipeline_nil slug
  · intro h2 h3
    have h1 : results ≠ [] := by rintro rfl; cases h2
    exact extract_pipeline_case2 h1 h2 h3
  · intro h2 h3
    have h1 : results ≠ [] := by rintro rfl; cases h2
    exact extract_pipeline_case3 h1 h2 h3
  · intro best h2
    exact extract_pipeline_case4 h2
  · exact ⟨rfl, rfl, by simp only [resp_no_results, build_response, confidence_map,
      String.reduceEq, if_false, if_true], rfl, rfl⟩
  · exact ⟨rfl, rfl, by simp only [resp_no_slug_match, build_response, confidence_map,
      String.reduceEq, if_false, if_true], rfl, rfl⟩
  · exact ⟨rfl, rfl, by simp only [resp_ambiguous, build_response, confidence_map,
      String.reduceEq, if_false, if_true], rfl, rfl⟩
  · intro best
    exact ⟨rfl, rfl, by simp only [resp_public, build_response, confidence_map,
      String.reduceEq, if_false, if_true], rfl, rfl⟩

/-- Witness for C6: one concrete input per outcome case. -/
theorem C6_outcome_cases_witness :
    extract_pipeline "jane" [] = .ok resp_no_results ∧
    extract_pipeline "jane" [⟨"x", "y", "z"⟩] = .ok resp_no_slug_match ∧
    extract_pipeline "jane" [⟨"x", "y", "linkedin.com/x/jane"⟩] =
      .ok (resp_ambiguous [⟨"x", "y", "linkedin.com/x/jane"⟩]) ∧
    extract_pipeline "jane" [⟨"jane", "", "https://linkedin.com/in/jane"⟩] =
      .ok (resp_public ⟨"jane", "", "https://linkedin.com/in/jane"⟩) :=
  ⟨(C6_outcome_cases "jane" []).1 rfl,
   (C6_outcome_cases "jane" [⟨"x", "y", "z"⟩]).2.1 rfl rfl,
   (C6_outcome_cases "jane" [⟨"x", "y", "linkedin.com/x/jane"⟩]).2.2.1 rfl rfl,
   (C6_outcome_cases "jane" [⟨"jane", "", "https://linkedin.com/in/jane"⟩]).2.2.2.1
     ⟨"jane", "", "https://linkedin.com/in/jane"⟩ rfl⟩

/-- C2 counterexample: with two matching experience segments the loop has
no break and a later valid segment overwrites an earlier one, so the
field holds the LAST match ("B"), while the claim predicts the FIRST
match ("A"). -/
theorem C2_counterexample :
    (structure_google_snippet "t" "Experience: A · Experience: B").experience =
      some "B" ∧
    ((snippetParts "Experience: A · Experience: B").find?
        (keyGood "experience".toList)).map (fun p => String.mk (keyVal p)) =
      some "A" ∧
    ("B" : String) ≠ "A" :=
  ⟨by decide, by decide, by decide⟩

/-- C2 amended: the experience field equals the extracted value (text
after the first colon, or the whole segment when it has no colon,
trimmed) of the LAST bullet-separated segment whose lowercase form
contains "experience" and whose extracted value is nonempty and not
"..."; likewise education, keyed on "education". -/
theorem C2_last_match (title snippet : String) :
    (structure_google_snippet title snippet).experience =
      (((snippetParts snippet).reverse.find? (keyGood "experience".toList)).map
        fun p => String.mk (keyVal p)) ∧
    (structure_google_snippet title snippet).education =
      (((snippetParts snippet).reverse.find? (keyGood "education".toList)).map
        fun p => String.mk (keyVal p)) := by
  constructor <;>
  · show (keyFieldLoop _ (snippetParts snippet)).map String.mk = _
    rw [keyFieldLoop_eq, Option.map_map]
    rfl

/-- C7 counterexample: the name heuristic only checks for a nonempty
pre-hyphen text, so the literal ellipsis placeholder can become the name
field. -/
theorem C7_counterexample :
    (structure_google_snippet "... - x" "").name = some "..." := by decide

theorem titled_cities_ok :
    ∀ city ∈ KNOWN_CITIES, String.mk (titleCase city) ≠ "" ∧
      String.mk (titleCase city) ≠ "..." := by decide

/-- C7 amended: no field of the structured profile is ever the empty
string, and no field other than name is ever the literal "..."; the name
field can be "..." (it is only checked for nonemptiness).  Absent fields
are `none` (key omitted), never an empty value. -/
theorem C7_field_hygiene (title snippet : String) :
    (∀ v, (structure_google_snippet title snippet).name = some v → v ≠ "") ∧
    (∀ v, (structure_google_snippet title snippet).about = some v →
      v ≠ "" ∧ v ≠ "...") ∧
    (∀ v, (structure_google_snippet title snippet).experience = some v →
      v ≠ "" ∧ v ≠ "...") ∧
    (∀ v, (structure_google_snippet title snippet).education = some v →
      v ≠ "" ∧ v ≠ "...") ∧
    (∀ v, (structure_google_snippet title snippet).location = some v →
      v ≠ "" ∧ v ≠ "...") ∧
    (∀ v, (structure_google_snippet title snippet).headline = some v →
      v ≠ "" ∧ v ≠ "...") := by
  have hkey : ∀ (key : List Char) (v : String),
      (keyFieldLoop key (snippetParts snippet)).map String.mk = some v →
      v ≠ "" ∧ v ≠ "..." := by
    intro key v hv
    rw [keyFieldLoop_eq, Option.map_map] at hv
    cases hfind : (snippetParts snippet).reverse.find? (keyGood key) with
    | none => rw [hfind] at hv; cases hv
    | some p =>
      rw [hfind] at hv
      have hg := List.find?_some hfind
      simp only [keyGood, Bool.and_eq_true, Bool.not_eq_eq_eq_not, Bool.not_true,
        bne_iff_ne, ne_eq] at hg
      obtain ⟨-, hne, hnel⟩ := hg
      have hvv : v = String.mk (keyVal p) := by
        simpa using hv.symm
      subst hvv
      constructor
      · exact mk_ne_empty (by simpa [List.isEmpty_iff] using hne)
      · intro he
        exact hnel (mk_eq_iff.mp he)
  refine ⟨?_, ?_, hkey "experience".toList, hkey "education".toList, ?_, ?_⟩
  · intro v hv
    simp only [structure_google_snippet] at hv
    split at hv
    · split at hv
      · cases hv
      · rename_i hne
        have hvv : v = String.mk (trimL (title.toList.takeWhile fun c => c != '-')) := by
          simpa using hv.symm
        subst hvv
        exact mk_ne_empty (by simpa [List.isEmpty_iff] using hne)
    · cases hv
  · intro v hv
    simp only [structure_google_snippet] at hv
    split at hv
    · cases hv
    · rename_i p0 rest hps
      split at hv
      · rename_i hcond
        simp only [Bool.and_eq_true, Bool.not_eq_eq_eq_not, Bool.not_true,
          bne_iff_ne, ne_eq] at hcond
        obtain ⟨hne, hnel⟩ := hcond
        have hvv : v = String.mk p0 := by simpa using hv.symm
        subst hvv
        refine ⟨mk_ne_empty (by simpa [List.isEmpty_iff] using hne), ?_⟩
        intro he
        exact hnel (mk_eq_iff.mp he)
      · cases hv
  · intro v hv
    simp only [structure_google_snippet] at hv
    cases hfind : KNOWN_CITIES.find?
        (fun city => containsSub (lowerL snippet.toList) city) with
    | none => rw [hfind] at hv; cases hv
    | some city =>
      rw [hfind] at hv
      have hmem := List.mem_of_find?_eq_some hfind
      have hvv : v = String.mk (titleCase city) := by simpa using hv.symm
      subst hvv
      exact titled_cities_ok city hmem
  · intro v hv
    simp only [structure_google_snippet] at hv
    split at hv
    · cases hv
    · rename_i ab hab
      cases hrs : roleSearch ab with
      | none => rw [hrs] at hv; cases hv
      | some m =>
        rw [hrs] at hv
        obtain ⟨c, r, hm, hws, hdot⟩ := roleSearch_head hrs
        obtain ⟨r', hr'⟩ := trimL_cons_of_not_ws hws r
        have hvv : v = String.mk (trimL m) := by simpa using hv.symm
        subst hvv
        rw [hm, hr']
        constructor
        · exact mk_ne_empty (List.cons_ne_nil c r')
        · intro he
          have hce := mk_eq_iff.mp he
          simp only [List.cons.injEq] at hce
          exact hdot hce.1

/-- Witness for C7 at a concrete title/snippet. -/
theorem C7_field_hygiene_witness :
    ("Jane Doe" : String) ≠ "" ∧
    (("Hello world" : String) ≠ "" ∧ ("Hello world" : String) ≠ "...") :=
  ⟨(C7_field_hygiene "Jane Doe - MIT" "Hello world").1 "Jane Doe" (by decide),
   (C7_field_hygiene "Jane Doe - MIT" "Hello world").2.1 "Hello world" (by decide)⟩

/-- C8: `extract_slug` is a total function (it signals failure only by
returning no slug): whenever the lowercased URL contains
"linkedin.com/in/" followed by a non-slash character it produces a slug;
any produced slug is a nonempty run of non-slash characters sitting right
after an occurrence of the pattern and ending at a slash or at the end of
the URL (so a trailing slash is stripped); when no such occurrence exists
it returns none; and with no slug the endpoint answers HTTP 400 for every
search collaborator, i.e. before any search call is made. -/
theorem C8_extract_slug (url : String) :
    ((∃ l1 c l2, lowerL url.toList = l1 ++ linkedinPat ++ c :: l2 ∧ c ≠ '/') →
      ∃ s, extract_slug url = some s) ∧
    (∀ s, extract_slug url = some s →
      s.data ≠ [] ∧ (∀ c ∈ s.data, c ≠ '/') ∧
      ∃ l1 l2, lowerL url.toList = l1 ++ linkedinPat ++ s.data ++ l2 ∧
        (l2 = [] ∨ ∃ r, l2 = '/' :: r)) ∧
    (extract_slug url = none →
      ∀ l1 c l2, lowerL url.toList = l1 ++ linkedinPat ++ c :: l2 → c = '/') ∧
    (extract_slug url = none →
      ∀ search : String → List SearchResult,
        extract_profile url search = .httpError 400 "Invalid LinkedIn URL") := by
  refine ⟨?_, ?_, ?_, ?_⟩
  · rintro ⟨l1, c, l2, heq, hc⟩
    cases hss : slugSearch (lowerL url.toList) with
    | none => exact absurd (slugSearch_none hss l1 c l2 heq) hc
    | some t => exact ⟨String.mk t, by rw [extract_slug, hss]; rfl⟩
  · intro s hs
    have hss : slugSearch (lowerL url.toList) = some s.data := by
      rw [extract_slug] at hs
      cases hss : slugSearch (lowerL url.toList) with
      | none => rw [hss] at hs; cases hs
      | some t =>
        rw [hss] at hs
        have ht : String.mk t = s := by simpa using hs
        rw [← ht]
    exact slugSearch_some hss
  · intro h0 l1 c l2 heq
    have hss : slugSearch (lowerL url.toList) = none := by
      rw [extract_slug] at h0
      cases hss : slugSearch (lowerL url.toList) with
      | none => rfl
      | some t => rw [hss] at h0; cases h0
    exact slugSearch_none hss l1 c l2 heq
  · intro h0 search
    simp [extract_profile, h0]

/-- Witness for C8: a URL with the pattern produces a slug; a URL without
it is rejected with HTTP 400 regardless of the search collaborator. -/
theorem C8_extract_slug_witness :
    (∃ s, extract_slug "https://LinkedIn.com/IN/Jane-Doe/about" = some s) ∧
    extract_profile "https://example.com" (fun _ => []) =
      .httpError 400 "Invalid LinkedIn URL" :=
  ⟨(C8_extract_slug "https://LinkedIn.com/IN/Jane-Doe/about").1
      ⟨"https://".toList, 'j', "ane-doe/about".toList, by decide, by decide⟩,
   (C8_extract_slug "https://example.com").2.2.2 (by decide) (fun _ => [])⟩

/-- C1 counterexample: the scenario result scores 90, not 100 — the
snippet contains no "location:" marker, so the +10 location signal is not
satisfied and the sum is 20+40+20+5+5 = 90. -/
theorem C1_counterexample :
    score_result ⟨"Jane Doe - Backend Engineer",
        "Software engineer · Experience: Acme Corp · Education: MIT · Mumbai",
        "https://linkedin.com/in/jane-doe"⟩ "jane-doe" = 90 ∧
    (90 : Nat) ≠ 100 :=
  ⟨by decide, by decide⟩

/-- C1 amended: for slug "jane-doe" and the single scenario result, the
score is 90 (not 100), the outcome is public_structured with confidence
0.9, and the structured data has name "Jane Doe", about "Software
engineer", experience "Acme Corp", education "MIT", location "Mumbai" and
headline exactly "engineer" (which starts with "engineer"). -/
theorem C1_scenario :
    score_result ⟨"Jane Doe - Backend Engineer",
        "Software engineer · Experience: Acme Corp · Education: MIT · Mumbai",
        "https://linkedin.com/in/jane-doe"⟩ "jane-doe" = 90 ∧
    extract_pipeline "jane-doe"
        [⟨"Jane Doe - Backend Engineer",
          "Software engineer · Experience: Acme Corp · Education: MIT · Mumbai",
          "https://linkedin.com/in/jane-doe"⟩] =
      .ok { status := "public_structured",
            confidence := 0.9,
            reason_code := "PROFILE_PUBLIC",
            reason_message := "Public LinkedIn profile found and structured using Google public data.",
            raw_google_data := RawData.one ⟨"Jane Doe - Backend Engineer",
              "Software engineer · Experience: Acme Corp · Education: MIT · Mumbai",
              "https://linkedin.com/in/jane-doe"⟩,
            structured_data := some { name := some "Jane Doe",
                                      about := some "Software engineer",
                                      experience := some "Acme Corp",
                                      education := some "MIT",
                                      location := some "Mumbai",
                                      headline := some "engineer" } } :=
  ⟨by decide, rfl⟩
